import Mathlib

/-!
A shallow embedding of the UI-state logic of the Secura landing page
(`src/App.tsx`): the simulated encryption progress task, the toast
center, the theme initializer, the FAQ accordion, the feature-tour
stepper, and the comparison cost calculator.  React `useState` fields
become record fields; `setInterval`/`setTimeout`-driven updates become
explicit step functions over lists of events; `Math.random()` values
become explicit rational parameters.
-/

namespace Secura

/-! ## Simulated encryption demo (`EncryptionDemo`) -/

/-- State of the `EncryptionDemo` component: the `file`, `encrypting`,
`encrypted` and `progress` `useState` fields, plus whether the
`setInterval` handle is live (`intervalActive`). -/
structure DemoState where
  file : String
  encrypting : Bool
  encrypted : Bool
  progress : ℚ
  intervalActive : Bool
deriving DecidableEq, Repr

/-- The three user-visible statuses of the progress task. -/
inductive DemoStatus
  | idle
  | running
  | complete
deriving DecidableEq, Repr

/-- The rendered status: the component shows the result view when
`encrypted`, the progress bar when `encrypting`, and the idle form
otherwise. -/
def DemoState.status (s : DemoState) : DemoStatus :=
  if s.encrypted then .complete else if s.encrypting then .running else .idle

/-- Initial component state: all `useState` initializers. -/
def initialDemo : DemoState :=
  { file := "", encrypting := false, encrypted := false, progress := 0
    intervalActive := false }

/-- Function `simulateEncryption`: `if (!file) return;` then
`setEncrypting(true); setProgress(0);` and start the interval. -/
def simulateEncryption (s : DemoState) : DemoState :=
  if s.file = "" then s
  else { s with encrypting := true, progress := 0, intervalActive := true }

/-- One firing of the interval callback, with `r` standing for the
sampled `Math.random() * 15`:
`prev >= 100` clears the interval, ends `encrypting`, sets `encrypted`
and returns `100`; otherwise the progress becomes `prev + r`. -/
def tick (r : ℚ) (s : DemoState) : DemoState :=
  if s.intervalActive then
    if 100 ≤ s.progress then
      { s with intervalActive := false, encrypting := false
               encrypted := true, progress := 100 }
    else { s with progress := s.progress + r }
  else s

/-- Run a sequence of interval firings with the given random samples. -/
def runTicks (rs : List ℚ) (s : DemoState) : DemoState :=
  rs.foldl (fun st r => tick r st) s

/-- Function `reset`: `setFile(''); setEncrypted(false); setProgress(0);`
(note: it touches neither `encrypting` nor the interval). -/
def reset (s : DemoState) : DemoState :=
  { s with file := "", encrypted := false, progress := 0 }

/-! ### Basic lemmas about `tick` and `runTicks` -/

/-- A tick never revives a cleared interval. -/
lemma tick_active_mono {r : ℚ} {s : DemoState}
    (h : (tick r s).intervalActive = true) : s.intervalActive = true := by
  by_cases ha : s.intervalActive
  · exact ha
  · simp [tick, ha] at h

/-- A tick that leaves the interval live took the incrementing branch,
so with a nonnegative sample the progress does not decrease. -/
lemma tick_progress_mono {r : ℚ} {s : DemoState} (hr : 0 ≤ r)
    (h : (tick r s).intervalActive = true) :
    s.progress ≤ (tick r s).progress := by
  have ha : s.intervalActive = true := tick_active_mono h
  by_cases hp : 100 ≤ s.progress
  · simp [tick, ha, hp] at h
  · simp [tick, ha, hp]
    linarith

/-- Once the interval is cleared, further firings are no-ops. -/
lemma runTicks_inactive {s : DemoState} (h : s.intervalActive = false) :
    ∀ rs : List ℚ, runTicks rs s = s := by
  intro rs
  induction rs with
  | nil => rfl
  | cons r rs ih =>
    have : tick r s = s := by simp [tick, h]
    simp [runTicks, List.foldl_cons, this]
    simpa [runTicks] using ih

lemma runTicks_append (a b : List ℚ) (s : DemoState) :
    runTicks (a ++ b) s = runTicks b (runTicks a s) := by
  simp [runTicks, List.foldl_append]

lemma runTicks_cons (r : ℚ) (rs : List ℚ) (s : DemoState) :
    runTicks (r :: rs) s = runTicks rs (tick r s) := by
  simp [runTicks, List.foldl_cons]

/-- With samples below 15, a tick keeps the progress below 115:
the clamping branch returns 100 and the incrementing branch starts
below 100. -/
lemma tick_progress_lt {r : ℚ} {s : DemoState}
    (hr : r < 15) (hs : s.progress < 115) :
    (tick r s).progress < 115 := by
  by_cases ha : s.intervalActive
  · by_cases hp : 100 ≤ s.progress
    · simp [tick, ha, hp]; norm_num
    · simp [tick, ha, hp]; push_neg at hp; linarith
  · simpa [tick, ha] using hs

/-- The progress stays below 115 along any run whose samples are
below 15. -/
lemma runTicks_progress_lt {rs : List ℚ} {s : DemoState}
    (hr : ∀ r ∈ rs, r < 15) (hs : s.progress < 115) :
    (runTicks rs s).progress < 115 := by
  induction rs generalizing s with
  | nil => simpa [runTicks] using hs
  | cons r rs ih =>
    rw [runTicks_cons]
    exact ih (fun x hx => hr x (List.mem_cons_of_mem _ hx))
      (tick_progress_lt (hr r (List.mem_cons_self _ _)) hs)

/-- Invariant: whenever `encrypted` holds, the progress is exactly 100
and the interval is cleared.  It is preserved by every tick. -/
def Completed (s : DemoState) : Prop :=
  s.encrypted = true → s.progress = 100 ∧ s.intervalActive = false

lemma tick_completed {r : ℚ} {s : DemoState} (h : Completed s) :
    Completed (tick r s) := by
  by_cases ha : s.intervalActive
  · by_cases hp : 100 ≤ s.progress
    · intro _; simp [tick, ha, hp]
    · intro he
      simp [tick, ha, hp] at he
      rcases h he with ⟨_, hact⟩
      rw [ha] at hact
      cases hact
  · simpa [tick, ha] using h

lemma runTicks_completed {rs : List ℚ} {s : DemoState} (h : Completed s) :
    Completed (runTicks rs s) := by
  induction rs generalizing s with
  | nil => simpa [runTicks] using h
  | cons r rs ih => rw [runTicks_cons]; exact ih (tick_completed h)

/-- A single tick from a live interval sitting at progress ≥ 100
completes the task, and all later ticks are no-ops. -/
lemma runTicks_complete_of_ge {rs : List ℚ} {s : DemoState}
    (hne : rs ≠ []) (ha : s.intervalActive = true) (hp : 100 ≤ s.progress) :
    (runTicks rs s).encrypted = true ∧ (runTicks rs s).progress = 100 := by
  cases rs with
  | nil => exact absurd rfl hne
  | cons r rs =>
    rw [runTicks_cons]
    have ht : tick r s =
        { s with intervalActive := false, encrypting := false
                 encrypted := true, progress := 100 } := by
      simp [tick, ha, hp]
    rw [ht, runTicks_inactive rfl]
    exact ⟨rfl, rfl⟩

/-- If every sample is at least `δ` and the run is long enough that
`(|rs| - 1) · δ` covers the remaining distance to 100, a live task
completes with progress exactly 100. -/
lemma runTicks_complete_of_long {δ : ℚ} {rs : List ℚ} {s : DemoState}
    (hne : rs ≠ []) (ha : s.intervalActive = true)
    (hδ : ∀ r ∈ rs, δ ≤ r)
    (hlen : 100 ≤ s.progress + ((rs.length : ℚ) - 1) * δ) :
    (runTicks rs s).encrypted = true ∧ (runTicks rs s).progress = 100 := by
  induction rs generalizing s with
  | nil => exact absurd rfl hne
  | cons r rs ih =>
    by_cases hp : 100 ≤ s.progress
    · exact runTicks_complete_of_ge hne ha hp
    · push_neg at hp
      cases rs with
      | nil =>
        exfalso
        simp at hlen
        linarith
      | cons r' rs' =>
        rw [runTicks_cons]
        have ht : tick r s = { s with progress := s.progress + r } := by
          simp [tick, ha, not_le.mpr hp]
        rw [ht]
        refine ih (List.cons_ne_nil _ _) ?_
          (fun x hx => hδ x (List.mem_cons_of_mem _ hx)) ?_
        · exact ha
        · have hr : δ ≤ r := hδ r (List.mem_cons_self _ _)
          have hn : ((r :: r' :: rs').length : ℚ)
              = ((r' :: rs').length : ℚ) + 1 := by
            push_cast [List.length_cons]
            ring
          rw [hn] at hlen
          have hdist : (((r' :: rs').length : ℚ)) * δ
              = (((r' :: rs').length : ℚ) - 1) * δ + δ := by ring
          show 100 ≤ s.progress + r + (((r' :: rs').length : ℚ) - 1) * δ
          have hlen' : 100 ≤ s.progress + ((r' :: rs').length : ℚ) * δ := by
            linarith [hlen]
          linarith [hr, hlen', hdist]

/-- Ticks never revive a cleared interval, over a whole run. -/
lemma runTicks_active_mono {rs : List ℚ} {s : DemoState}
    (h : (runTicks rs s).intervalActive = true) : s.intervalActive = true := by
  induction rs generalizing s with
  | nil => simpa [runTicks] using h
  | cons r rs ih =>
    rw [runTicks_cons] at h
    exact tick_active_mono (ih h)

/-- As long as the interval stays live, nonnegative samples make the
progress nondecreasing over a whole run. -/
lemma runTicks_progress_mono {rs : List ℚ} {s : DemoState}
    (hr : ∀ r ∈ rs, 0 ≤ r)
    (h : (runTicks rs s).intervalActive = true) :
    s.progress ≤ (runTicks rs s).progress := by
  induction rs generalizing s with
  | nil => simp [runTicks]
  | cons r rs ih =>
    rw [runTicks_cons] at h ⊢
    have h1 : (tick r s).intervalActive = true := runTicks_active_mono h
    have h2 : s.progress ≤ (tick r s).progress :=
      tick_progress_mono (hr r (List.mem_cons_self _ _)) h1
    exact le_trans h2 (ih (fun x hx => hr x (List.mem_cons_of_mem _ hx)) h)

/-- Evaluation lemma: `k` ticks of the same increment `r` from a
running state whose progress stays below 100 throughout just add
`k · r` to the progress. -/
lemma runTicks_replicate_running (k : ℕ) (r p : ℚ) (f : String) (e : Bool)
    (hr : 0 ≤ r) (h : p + ((k : ℚ) - 1) * r < 100) :
    runTicks (List.replicate k r) ⟨f, true, e, p, true⟩ =
      ⟨f, true, e, p + (k : ℚ) * r, true⟩ := by
  induction k generalizing p with
  | zero => simp [runTicks, List.replicate]
  | succ k ih =>
    have hk : (0 : ℚ) ≤ (k : ℚ) * r := by positivity
    have hp : p < 100 := by
      push_cast at h
      linarith [hk]
    rw [List.replicate_succ, runTicks_cons]
    have ht : tick r ⟨f, true, e, p, true⟩ = ⟨f, true, e, p + r, true⟩ := by
      simp [tick, not_le.mpr hp]
    rw [ht, ih (p + r) (by push_cast at h ⊢; linarith)]
    have hpr : p + r + (k : ℚ) * r = p + ((k + 1 : ℕ) : ℚ) * r := by
      push_cast
      ring
    rw [hpr]

/-! ## Claims about the encryption demo -/

/-- C1 (amended): for every non-empty input, once started and driven by
interval ticks whose random increments lie in [0, 15): the progress at
every intermediate sample stays below 115 (it may transiently exceed
100, see the counterexample); whenever the task reaches
status=complete the value is exactly 100 and the repeating tick has
been cancelled; and whenever the increments are bounded below by some
positive δ with the run long enough, the task does reach complete with
value exactly 100. -/
theorem C1_progress_completes (s : DemoState) (rs : List ℚ)
    (hfile : s.file ≠ "") (henc : s.encrypted = false)
    (hr : ∀ r ∈ rs, 0 ≤ r ∧ r < 15) :
    (∀ n : ℕ, (runTicks (rs.take n) (simulateEncryption s)).progress < 115) ∧
    ((runTicks rs (simulateEncryption s)).encrypted = true →
      (runTicks rs (simulateEncryption s)).progress = 100 ∧
      (runTicks rs (simulateEncryption s)).intervalActive = false) ∧
    (∀ δ : ℚ, 0 < δ → (∀ r ∈ rs, δ ≤ r) → rs ≠ [] →
      100 ≤ ((rs.length : ℚ) - 1) * δ →
      (runTicks rs (simulateEncryption s)).encrypted = true ∧
      (runTicks rs (simulateEncryption s)).progress = 100) := by
  have hs0 : simulateEncryption s =
      { s with encrypting := true, progress := 0, intervalActive := true } := by
    simp [simulateEncryption, hfile]
  refine ⟨?_, ?_, ?_⟩
  · intro n
    rw [hs0]
    refine runTicks_progress_lt ?_ (by norm_num)
    intro x hx
    exact (hr x ((List.take_sublist n rs).subset hx)).2
  · have hc : Completed (simulateEncryption s) := by
      intro he
      rw [hs0] at he
      exact absurd (henc ▸ he) (by simp)
    exact runTicks_completed hc
  · intro δ _ hδ hne hlen
    rw [hs0]
    refine runTicks_complete_of_long hne rfl hδ ?_
    show (100 : ℚ) ≤ 0 + ((rs.length : ℚ) - 1) * δ
    linarith [hlen]

/-- Witness for C1: with input "secret" and eleven ticks of increment
10, the task completes with value exactly 100. -/
theorem C1_progress_completes_witness :
    (runTicks (List.replicate 11 10)
      (simulateEncryption ⟨"secret", false, false, 0, false⟩)).encrypted = true ∧
    (runTicks (List.replicate 11 10)
      (simulateEncryption ⟨"secret", false, false, 0, false⟩)).progress = 100 :=
  (C1_progress_completes ⟨"secret", false, false, 0, false⟩
      (List.replicate 11 10) (by decide) rfl
      (by intro r hr; rw [List.eq_of_mem_replicate hr]; norm_num)).2.2
    10 (by norm_num)
    (by intro r hr; rw [List.eq_of_mem_replicate hr])
    (by decide) (by norm_num)

/-- Counterexample for C1 as stated: starting from input "secret" and
taking eight ticks of increment 14 (each within [0, 15)), the task is
still running with value 112 > 100, so an intermediate sample does
exceed 100. -/
theorem C1_counterexample :
    100 < (runTicks (List.replicate 8 14)
      (simulateEncryption ⟨"secret", false, false, 0, false⟩)).progress ∧
    (runTicks (List.replicate 8 14)
      (simulateEncryption ⟨"secret", false, false, 0, false⟩)).status =
      DemoStatus.running := by
  have h0 : simulateEncryption ⟨"secret", false, false, 0, false⟩ =
      ⟨"secret", true, false, 0, true⟩ := by
    simp [simulateEncryption]
  have h1 := runTicks_replicate_running 8 14 0 "secret" false
    (by norm_num) (by norm_num)
  rw [h0, h1]
  refine ⟨by norm_num, ?_⟩
  simp [DemoState.status]

/-- C2 (confirmed): while the task is still running after `j` ticks
(the interval is live), the progress sampled after `i ≤ j` ticks is at
most the progress sampled after `j` ticks: the value is monotonically
non-decreasing while running. -/
theorem C2_progress_monotone (rs : List ℚ) (s : DemoState)
    (hr : ∀ r ∈ rs, 0 ≤ r) (i j : ℕ) (hij : i ≤ j)
    (hact : (runTicks (rs.take j) s).intervalActive = true) :
    (runTicks (rs.take i) s).progress ≤ (runTicks (rs.take j) s).progress := by
  have hsplit : rs.take j = rs.take i ++ (rs.take j).drop i := by
    conv_lhs => rw [← List.take_append_drop i (rs.take j)]
    rw [List.take_take, min_eq_left hij]
  rw [hsplit, runTicks_append] at hact ⊢
  refine runTicks_progress_mono ?_ hact
  intro x hx
  exact hr x (((List.drop_sublist i _).trans (List.take_sublist j rs)).subset hx)

/-- Witness for C2: after four ticks of 14 the task is still running,
and the value after two ticks (28) is at most the value after four
(56). -/
theorem C2_progress_monotone_witness :
    (runTicks ((List.replicate 4 (14 : ℚ)).take 2)
        (simulateEncryption ⟨"secret", false, false, 0, false⟩)).progress ≤
      (runTicks ((List.replicate 4 (14 : ℚ)).take 4)
        (simulateEncryption ⟨"secret", false, false, 0, false⟩)).progress :=
  C2_progress_monotone (List.replicate 4 14)
    (simulateEncryption ⟨"secret", false, false, 0, false⟩)
    (by intro r hr; rw [List.eq_of_mem_replicate hr]; norm_num)
    2 4 (by norm_num)
    (by
      have h0 : simulateEncryption
          (⟨"secret", false, false, 0, false⟩ : DemoState) =
          ⟨"secret", true, false, 0, true⟩ := by
        simp [simulateEncryption]
      have ht : (List.replicate 4 (14 : ℚ)).take 4 = List.replicate 4 14 := by
        simp [List.take_replicate]
      rw [ht, h0, runTicks_replicate_running 4 14 0 "secret" false
        (by norm_num) (by norm_num)])

/-- C8 (confirmed): starting with an empty input is a silent no-op:
`simulateEncryption` returns the state unchanged. -/
theorem C8_empty_input_noop (s : DemoState) (h : s.file = "") :
    simulateEncryption s = s := by
  simp [simulateEncryption, h]

/-- Witness for C8: on the initial state (empty input, status idle) the
start action changes nothing, and the status is idle. -/
theorem C8_empty_input_noop_witness :
    simulateEncryption initialDemo = initialDemo ∧
    initialDemo.status = DemoStatus.idle :=
  ⟨C8_empty_input_noop initialDemo rfl, by decide⟩

/-- Counterexample for C9 as stated: `reset` does not clear the
`encrypting` flag (nor the interval), so resetting a running task
(here: after start and four ticks of 14) leaves the status at running,
not idle. -/
theorem C9_counterexample :
    (reset (runTicks (List.replicate 4 14)
      (simulateEncryption ⟨"secret", false, false, 0, false⟩))).status =
      DemoStatus.running ∧
    (reset (runTicks (List.replicate 4 14)
      (simulateEncryption ⟨"secret", false, false, 0, false⟩))).status ≠
      DemoStatus.idle := by
  have h0 : simulateEncryption ⟨"secret", false, false, 0, false⟩ =
      ⟨"secret", true, false, 0, true⟩ := by
    simp [simulateEncryption]
  have h1 := runTicks_replicate_running 4 14 0 "secret" false
    (by norm_num) (by norm_num)
  rw [h0, h1]
  constructor
  · simp [reset, DemoState.status]
  · simp [reset, DemoState.status]

/-- C9 (amended): from any state with no tick task in flight
(`encrypting = false`, i.e. status idle or complete), `reset()` clears
the input, sets the value to 0 and returns the status to idle; from a
running state it leaves the task running. -/
theorem C9_reset_idle (s : DemoState) (h : s.encrypting = false) :
    (reset s).file = "" ∧ (reset s).progress = 0 ∧
    (reset s).status = DemoStatus.idle := by
  refine ⟨rfl, rfl, ?_⟩
  simp [reset, DemoState.status, h]

/-- Witness for C9: resetting a completed task returns it to idle with
value 0 and empty input. -/
theorem C9_reset_idle_witness :
    (reset ⟨"secret", false, true, 100, false⟩).file = "" ∧
    (reset ⟨"secret", false, true, 100, false⟩).progress = 0 ∧
    (reset ⟨"secret", false, true, 100, false⟩).status = DemoStatus.idle :=
  C9_reset_idle ⟨"secret", false, true, 100, false⟩ rfl

/-! ## Toast center (`addToast` / `dismissToast` in `App`) -/

/-- Toast kinds, from `interface Toast`'s `type` field. -/
inductive ToastType
  | success
  | error
  | info
deriving DecidableEq, Repr

/-- A toast: `{id: number, type, message}`.  Ids come from
`Date.now()`, modelled as a natural number. -/
structure Toast where
  id : ℕ
  type : ToastType
  message : String
deriving DecidableEq, Repr

/-- Function `addToast`: `const id = Date.now(); setToasts(prev => [...prev,
{id, type, message}])`, with `now` the sampled clock value. -/
def addToast (now : ℕ) (ty : ToastType) (msg : String)
    (ts : List Toast) : List Toast :=
  ts ++ [⟨now, ty, msg⟩]

/-- The removal both `dismissToast` and the 5000ms `setTimeout`
callback perform: `setToasts(prev => prev.filter(t => t.id !== id))`. -/
def removeToast (id : ℕ) (ts : List Toast) : List Toast :=
  ts.filter (fun t => t.id ≠ id)

/-- The three events that can mutate the toast list: a user push (with
the clock value `Date.now()` returns at that moment), a user dismissal,
and a 5000ms auto-expiry timer firing. -/
inductive ToastEvent
  | push (now : ℕ) (ty : ToastType) (msg : String)
  | dismiss (id : ℕ)
  | expire (id : ℕ)
deriving DecidableEq, Repr

/-- One toast event applied to the visible list. -/
def toastStep (ts : List Toast) (e : ToastEvent) : List Toast :=
  match e with
  | .push now ty msg => addToast now ty msg ts
  | .dismiss id => removeToast id ts
  | .expire id => removeToast id ts

/-- A whole event history applied to the visible list. -/
def runToasts (evs : List ToastEvent) (ts : List Toast) : List Toast :=
  evs.foldl toastStep ts

/-- The clock values sampled by the pushes of an event history, in
order. -/
def pushTimes (evs : List ToastEvent) : List ℕ :=
  evs.filterMap (fun e =>
    match e with
    | .push now _ _ => some now
    | _ => none)

/-- The ids of the visible toasts stay strictly sorted provided the
current ids and the upcoming push times form one strictly increasing
list: pushes append a strictly larger id, removals keep a
subsequence. -/
lemma runToasts_sorted (evs : List ToastEvent) (ts : List Toast)
    (h : ((ts.map Toast.id) ++ pushTimes evs).Pairwise (· < ·)) :
    ((runToasts evs ts).map Toast.id).Pairwise (· < ·) := by
  induction evs generalizing ts with
  | nil =>
    simpa [pushTimes] using h
  | cons e evs ih =>
    cases e with
    | push now ty msg =>
      have hstep : runToasts (ToastEvent.push now ty msg :: evs) ts =
          runToasts evs (addToast now ty msg ts) := rfl
      rw [hstep]
      apply ih
      have hmap : (addToast now ty msg ts).map Toast.id =
          ts.map Toast.id ++ [now] := by
        simp [addToast]
      rw [hmap, List.append_assoc]
      simpa [pushTimes] using h
    | dismiss id =>
      have hstep : runToasts (ToastEvent.dismiss id :: evs) ts =
          runToasts evs (removeToast id ts) := rfl
      rw [hstep]
      apply ih
      have hsub : List.Sublist ((removeToast id ts).map Toast.id)
          (ts.map Toast.id) :=
        (List.filter_sublist ts).map Toast.id
      have hpt : pushTimes (ToastEvent.dismiss id :: evs) = pushTimes evs := by
        simp [pushTimes]
      rw [hpt] at h
      exact h.sublist (hsub.append_right _)
    | expire id =>
      have hstep : runToasts (ToastEvent.expire id :: evs) ts =
          runToasts evs (removeToast id ts) := rfl
      rw [hstep]
      apply ih
      have hsub : List.Sublist ((removeToast id ts).map Toast.id)
          (ts.map Toast.id) :=
        (List.filter_sublist ts).map Toast.id
      have hpt : pushTimes (ToastEvent.expire id :: evs) = pushTimes evs := by
        simp [pushTimes]
      rw [hpt] at h
      exact h.sublist (hsub.append_right _)

/-- Counterexample for C3 as stated: `Date.now()` can return the same
millisecond twice, and `addToast` has no tie-break, so two pushes at
the same clock value put two toasts with the same id in the visible
set: the ids are not pairwise distinct. -/
theorem C3_counterexample :
    ¬ ((runToasts [ToastEvent.push 5 .info "a", ToastEvent.push 5 .info "b"]
        []).map Toast.id).Pairwise (· ≠ ·) := by
  decide

/-- C3 (amended): provided every push samples a strictly larger clock
value than all earlier pushes (`Date.now()` strictly increasing across
pushes), then after any sequence of push, dismiss and auto-expiry
events the visible ids are strictly increasing in display order — so
each pushed toast's id exceeds every id assigned before it — and in
particular pairwise distinct. -/
theorem C3_toast_ids_unique (evs : List ToastEvent)
    (h : (pushTimes evs).Pairwise (· < ·)) :
    ((runToasts evs []).map Toast.id).Pairwise (· < ·) ∧
    ((runToasts evs []).map Toast.id).Pairwise (· ≠ ·) := by
  have hs : ((runToasts evs []).map Toast.id).Pairwise (· < ·) :=
    runToasts_sorted evs [] (by simpa using h)
  exact ⟨hs, hs.imp fun {a b} hab => Nat.ne_of_lt hab⟩

/-- Witness for C3: three pushes at times 1, 2, 3 with a dismissal in
between leave a visible set with strictly increasing, distinct ids. -/
theorem C3_toast_ids_unique_witness :
    ((runToasts [ToastEvent.push 1 .info "a", ToastEvent.push 2 .success "b",
        ToastEvent.dismiss 1, ToastEvent.push 3 .error "c"] []).map
      Toast.id).Pairwise (· < ·) ∧
    ((runToasts [ToastEvent.push 1 .info "a", ToastEvent.push 2 .success "b",
        ToastEvent.dismiss 1, ToastEvent.push 3 .error "c"] []).map
      Toast.id).Pairwise (· ≠ ·) :=
  C3_toast_ids_unique
    [ToastEvent.push 1 .info "a", ToastEvent.push 2 .success "b",
      ToastEvent.dismiss 1, ToastEvent.push 3 .error "c"]
    (by decide)

/-- C4 (confirmed): `dismiss(i)` immediately removes every toast with
id `i` from the visible set, and a stale auto-expiry firing for an id
that was already dismissed is a no-op: expiring right after dismissing
leaves exactly the state the dismissal produced. -/
theorem C4_dismiss_then_stale_expiry (ts : List Toast) (i : ℕ) :
    (∀ t, t ∈ toastStep ts (ToastEvent.dismiss i) → t.id ≠ i) ∧
    toastStep (toastStep ts (ToastEvent.dismiss i)) (ToastEvent.expire i) =
      toastStep ts (ToastEvent.dismiss i) := by
  constructor
  · intro t ht
    have := List.of_mem_filter ht
    simpa using this
  · apply List.filter_eq_self.mpr
    intro t ht
    exact List.mem_filter.mp ht |>.2

/-- Witness for C4: dismissing id 2 out of `[1, 2, 3]` removes it, and
the stale expiry of 2 afterwards changes nothing. -/
theorem C4_dismiss_then_stale_expiry_witness :
    (∀ t, t ∈ toastStep
        [(⟨1, .info, "a"⟩ : Toast), ⟨2, .success, "b"⟩, ⟨3, .error, "c"⟩]
        (ToastEvent.dismiss 2) → t.id ≠ 2) ∧
    toastStep (toastStep
        [(⟨1, .info, "a"⟩ : Toast), ⟨2, .success, "b"⟩, ⟨3, .error, "c"⟩]
        (ToastEvent.dismiss 2)) (ToastEvent.expire 2) =
      toastStep
        [(⟨1, .info, "a"⟩ : Toast), ⟨2, .success, "b"⟩, ⟨3, .error, "c"⟩]
        (ToastEvent.dismiss 2) :=
  C4_dismiss_then_stale_expiry
    [⟨1, .info, "a"⟩, ⟨2, .success, "b"⟩, ⟨3, .error, "c"⟩] 2

/-! ## Theme initializer (`darkMode` `useState` initializer) -/

/-- The browser environment seen by the initializer: the persisted
`localStorage.getItem('secura-theme')` result (`none` = key absent)
and the `matchMedia('(prefers-color-scheme: dark)').matches` signal. -/
structure ThemeEnv where
  saved : Option String
  systemDark : Bool
deriving DecidableEq, Repr

/-- The `darkMode` initializer: when `window` is defined (`some env`),
a truthy stored value decides via `saved === 'dark'`, otherwise the
media query decides; when `window` is undefined it returns `true`
(dark). -/
def getInitial (w : Option ThemeEnv) : Bool :=
  match w with
  | some env =>
    match env.saved with
    | some s => if s = "" then env.systemDark else s == "dark"
    | none => env.systemDark
  | none => true

/-- C5 (confirmed): the initializer returns the persisted preference
when one is stored ("dark" ↦ dark, "light" ↦ light), falls back to the
system color-scheme signal when no value is persisted, and defaults to
dark when neither source is available. -/
theorem C5_theme_initial (sys : Bool) :
    getInitial (some ⟨some "dark", sys⟩) = true ∧
    getInitial (some ⟨some "light", sys⟩) = false ∧
    getInitial (some ⟨none, sys⟩) = sys ∧
    getInitial none = true := by
  refine ⟨rfl, rfl, rfl, rfl⟩

/-! ## FAQ accordion (`setOpenFaq` handler) -/

/-- The click/keyboard handler
`setOpenFaq(openFaq === index ? null : index)` applied to the current
`openFaq` state. -/
def select (i : ℕ) (active : Option ℕ) : Option ℕ :=
  if active = some i then none else some i

/-- The list of open items an `openFaq` state denotes (the markup
renders answer `j` exactly when `openFaq = j`). -/
def openItems (active : Option ℕ) : List ℕ :=
  active.toList

/-- C6 (confirmed): selecting `i` activates it when it is not the
active item and deactivates everything when it is; in particular a
double select of a non-active `i` returns the accordion to none, and
at most one item is ever open. -/
theorem C6_accordion_toggle (active : Option ℕ) (i : ℕ) :
    (active ≠ some i → select i active = some i) ∧
    select i (some i) = none ∧
    (active ≠ some i → select i (select i active) = none) ∧
    (openItems (select i active)).length ≤ 1 := by
  refine ⟨fun h => by simp [select, h], by simp [select], fun h => ?_, ?_⟩
  · simp [select, h]
  · by_cases h : active = some i
    · simp [select, h, openItems, Option.toList]
    · simp [select, h, openItems, Option.toList]

/-- Witness for C6: from item 1 open, selecting item 2 opens it, and
selecting item 2 twice from that state closes everything. -/
theorem C6_accordion_toggle_witness :
    select 2 (some 1) = some 2 ∧ select 2 (select 2 (some 1)) = none :=
  ⟨(C6_accordion_toggle (some 1) 2).1 (by decide),
    (C6_accordion_toggle (some 1) 2).2.2.1 (by decide)⟩

/-! ## Feature tour (`FeatureTour` + `closeTour`) -/

/-- The number of tour steps (`steps.length` in `FeatureTour`). -/
def numSteps : ℕ := 4

/-- Tour stepper state: the `step` `useState`, whether the modal is
shown (`showTour`), whether `'secura-tour-seen'` is persisted, and how
many times `localStorage.setItem` for the seen-flag ran. -/
structure TourState where
  step : ℕ
  shown : Bool
  seen : Bool
  writes : ℕ
deriving DecidableEq, Repr

/-- The actions the tour UI exposes: the Previous button (rendered
only when `step > 0`), the Next button (rendered only when
`step < steps.length - 1`), and the terminal Get Started button
(rendered in place of Next at the last step), which calls `closeTour`:
`setShowTour(false); localStorage.setItem('secura-tour-seen', 'true')`. -/
inductive TourEvent
  | next
  | previous
  | finish
deriving DecidableEq, Repr

/-- One tour action, guarded the way the buttons are rendered (they
exist only while the modal is shown). -/
def tourStep (s : TourState) (e : TourEvent) : TourState :=
  match e with
  | .next =>
    if s.shown = true ∧ s.step < numSteps - 1 then { s with step := s.step + 1 }
    else s
  | .previous =>
    if s.shown = true ∧ 0 < s.step then { s with step := s.step - 1 }
    else s
  | .finish =>
    if s.shown = true ∧ s.step = numSteps - 1 then
      { s with shown := false, seen := true, writes := s.writes + 1 }
    else s

/-- A sequence of tour actions. -/
def runTour (evs : List TourEvent) (s : TourState) : TourState :=
  evs.foldl tourStep s

/-- The state when the tour auto-opens: step 0, modal shown, seen-flag
not yet persisted. -/
def initialTour : TourState :=
  { step := 0, shown := true, seen := false, writes := 0 }

/-- The invariant the tour preserves: the step is in [0, numSteps-1],
the seen-flag was written at most once, while the modal is still shown
it was not written at all, and once the modal has been closed it was
written exactly once with the seen-flag set (only the finish branch
closes the modal, and it writes). -/
def TourInv (s : TourState) : Prop :=
  s.step ≤ numSteps - 1 ∧ s.writes ≤ 1 ∧ (s.shown = true → s.writes = 0) ∧
  (s.shown = false → s.writes = 1 ∧ s.seen = true)

lemma tourStep_inv {s : TourState} (h : TourInv s) (e : TourEvent) :
    TourInv (tourStep s e) := by
  obtain ⟨hstep, hw, hsw, hsf⟩ := h
  cases e with
  | next =>
    by_cases hc : s.shown = true ∧ s.step < numSteps - 1
    · have h1 : tourStep s .next = { s with step := s.step + 1 } := by
        simp [tourStep, hc]
      rw [h1]
      refine ⟨?_, hw, hsw, hsf⟩
      exact hc.2
    · have h1 : tourStep s .next = s := by simp [tourStep, hc]
      rw [h1]
      exact ⟨hstep, hw, hsw, hsf⟩
  | previous =>
    by_cases hc : s.shown = true ∧ 0 < s.step
    · have h1 : tourStep s .previous = { s with step := s.step - 1 } := by
        simp [tourStep, hc]
      rw [h1]
      exact ⟨le_trans (Nat.sub_le _ _) hstep, hw, hsw, hsf⟩
    · have h1 : tourStep s .previous = s := by simp [tourStep, hc]
      rw [h1]
      exact ⟨hstep, hw, hsw, hsf⟩
  | finish =>
    by_cases hc : s.shown = true ∧ s.step = numSteps - 1
    · have h1 : tourStep s .finish =
          { s with shown := false, seen := true, writes := s.writes + 1 } := by
        simp [tourStep, hc]
      rw [h1]
      have h0 := hsw hc.1
      refine ⟨hstep, ?_, ?_, ?_⟩
      · show s.writes + 1 ≤ 1
        omega
      · intro hsh
        exact absurd hsh (by simp)
      · intro _
        refine ⟨?_, rfl⟩
        show s.writes + 1 = 1
        omega
    · have h1 : tourStep s .finish = s := by simp [tourStep, hc]
      rw [h1]
      exact ⟨hstep, hw, hsw, hsf⟩

lemma runTour_inv {s : TourState} (h : TourInv s) (evs : List TourEvent) :
    TourInv (runTour evs s) := by
  induction evs generalizing s with
  | nil => simpa [runTour] using h
  | cons e evs ih =>
    have hstep : runTour (e :: evs) s = runTour evs (tourStep s e) := rfl
    rw [hstep]
    exact ih (tourStep_inv h e)

/-- C7 (confirmed): along every sequence of tour actions from the
auto-opened state, the step stays within [0, numSteps-1] and the
seen-flag is persisted at most once; Previous at step 0 is a no-op;
at the final step, while the modal is shown, the terminal finish
action closes the modal, sets the seen-flag and performs its one
write; once the modal has been closed the flag was written exactly
once with seen set, and every further action (including a repeated
finish) is a no-op. -/
theorem C7_tour_stepper (evs : List TourEvent) :
    (runTour evs initialTour).step ≤ numSteps - 1 ∧
    (runTour evs initialTour).writes ≤ 1 ∧
    (∀ s : TourState, s.step = 0 → tourStep s TourEvent.previous = s) ∧
    (∀ s : TourState, s.shown = true → s.step = numSteps - 1 →
      tourStep s TourEvent.finish =
        { s with shown := false, seen := true, writes := s.writes + 1 }) ∧
    ((runTour evs initialTour).shown = false →
      (runTour evs initialTour).writes = 1 ∧
      (runTour evs initialTour).seen = true) ∧
    ((runTour evs initialTour).shown = false →
      ∀ e, tourStep (runTour evs initialTour) e = runTour evs initialTour) := by
  have hinv : TourInv (runTour evs initialTour) :=
    runTour_inv ⟨by simp [initialTour, numSteps], by simp [initialTour],
      fun _ => rfl, fun h => by simp [initialTour] at h⟩ evs
  refine ⟨hinv.1, hinv.2.1, ?_, ?_, hinv.2.2.2, ?_⟩
  · intro s h0
    simp [tourStep, h0]
  · intro s hsh hlast
    simp [tourStep, hsh, hlast]
  · intro hsh e
    cases e <;> simp [tourStep, hsh]

/-- Witness for C7: from the auto-opened tour, Next three times then
Get Started ends with the modal closed, the seen-flag set and exactly
one write; a Previous at step 0 changes nothing; the finish action at
the concrete last-step state closes and writes; and a repeated finish
on the closed modal is a no-op. -/
theorem C7_tour_stepper_witness :
    (runTour [TourEvent.next, TourEvent.next, TourEvent.next,
        TourEvent.finish] initialTour).step ≤ numSteps - 1 ∧
    tourStep initialTour TourEvent.previous = initialTour ∧
    tourStep ⟨3, true, false, 0⟩ TourEvent.finish =
      (⟨3, false, true, 1⟩ : TourState) ∧
    ((runTour [TourEvent.next, TourEvent.next, TourEvent.next,
        TourEvent.finish] initialTour).writes = 1 ∧
      (runTour [TourEvent.next, TourEvent.next, TourEvent.next,
        TourEvent.finish] initialTour).seen = true) ∧
    tourStep (runTour [TourEvent.next, TourEvent.next, TourEvent.next,
        TourEvent.finish] initialTour) TourEvent.finish =
      runTour [TourEvent.next, TourEvent.next, TourEvent.next,
        TourEvent.finish] initialTour :=
  have h := C7_tour_stepper
    [TourEvent.next, TourEvent.next, TourEvent.next, TourEvent.finish]
  ⟨h.1, h.2.2.1 initialTour rfl,
    h.2.2.2.1 ⟨3, true, false, 0⟩ rfl rfl,
    h.2.2.2.2.1 (by decide),
    h.2.2.2.2.2 (by decide) TourEvent.finish⟩

/-! ## Comparison cost calculator (`ComparisonCalculator`) -/

/-- One row of the `competitors` array. -/
structure Competitor where
  name : String
  pricePerGB : ℚ
  hasE2E : Bool
deriving DecidableEq, Repr

/-- The `competitors` array. -/
def competitors : List Competitor :=
  [⟨"Secura", 0, true⟩, ⟨"Tresorit", 15/100, true⟩,
    ⟨"Dropbox", 10/100, false⟩, ⟨"Google Drive", 2/100, false⟩]

/-- The `totalGB = files * size` quantity — despite its name this is the megabyte
total, since `size` is the average file size in MB. -/
def totalGB (files size : ℕ) : ℚ :=
  (files : ℚ) * (size : ℚ)

/-- The cost: `c.pricePerGB === 0 ? 0 : totalGB * c.pricePerGB`. -/
def cost (c : Competitor) (files size : ℕ) : ℚ :=
  if c.pricePerGB = 0 then 0 else totalGB files size * c.pricePerGB

/-- The "Total Storage" figure the component renders:
`(totalGB / 1024).toFixed(2)` GB (before rounding). -/
def displayedStorageGB (files size : ℕ) : ℚ :=
  totalGB files size / 1024

/-- The rendered price cell shows FREE exactly when `c.cost === 0`. -/
def showsFree (c : Competitor) (files size : ℕ) : Bool :=
  cost c files size == 0

/-- C10 (confirmed): for sliders in range, every competitor's monthly
cost is `files × size × pricePerGB` — the per-GB price applied to the
megabyte total — the zero-priced entry (Secura) shows FREE while every
positively-priced entry does not, and the displayed storage times 1024
is the charged quantity, i.e. they differ by a factor of 1024. -/
theorem C10_calculator (c : Competitor) (files size : ℕ)
    (hc : c ∈ competitors) (hf1 : 10 ≤ files) (hf2 : files ≤ 1000)
    (hs1 : 1 ≤ size) (hs2 : size ≤ 100) :
    cost c files size = (files : ℚ) * (size : ℚ) * c.pricePerGB ∧
    (c.pricePerGB = 0 → showsFree c files size = true) ∧
    (0 < c.pricePerGB → showsFree c files size = false) ∧
    displayedStorageGB files size * 1024 = totalGB files size := by
  have hpos : (0 : ℚ) < (files : ℚ) * (size : ℚ) := by
    have : (0 : ℚ) < (files : ℚ) := by exact_mod_cast lt_of_lt_of_le (by norm_num) hf1
    have : (0 : ℚ) < (size : ℚ) := by exact_mod_cast hs1
    positivity
  refine ⟨?_, ?_, ?_, ?_⟩
  · by_cases h : c.pricePerGB = 0
    · simp [cost, h]
    · simp [cost, h, totalGB]
  · intro h
    simp [showsFree, cost, h]
  · intro h
    have hcost : 0 < cost c files size := by
      rw [show cost c files size = totalGB files size * c.pricePerGB from by
        simp [cost, ne_of_gt h]]
      exact mul_pos (by simpa [totalGB] using hpos) h
    simp [showsFree, ne_of_gt hcost]
  · simp [displayedStorageGB]

/-- Witness for C10: at the default sliders (100 files × 5 MB),
Tresorit's cost is 500 × 0.15 = 75 and it does not show FREE, while
the displayed storage times 1024 is the 500 MB charged quantity. -/
theorem C10_calculator_witness :
    cost ⟨"Tresorit", 15/100, true⟩ 100 5 =
      (100 : ℚ) * 5 * ((15 : ℚ)/100) ∧
    showsFree ⟨"Tresorit", 15/100, true⟩ 100 5 = false ∧
    displayedStorageGB 100 5 * 1024 = totalGB 100 5 :=
  have h := C10_calculator ⟨"Tresorit", 15/100, true⟩ 100 5
    (by simp [competitors]) (by norm_num) (by norm_num) (by norm_num)
    (by norm_num)
  ⟨by simpa using h.1, h.2.2.1 (by norm_num), h.2.2.2⟩

end Secura
